/-
Verification of the per-user fixed-capacity image slot store (src/main.py).

The embedding models:
  * the slot metadata table (SQLite table `images`) as a list of records in
    rowid (insertion) order;
  * the blob store (filesystem under UPLOAD_ROOT) as an association list
    from paths to abstract byte contents (we use Nat as content identity);
  * user-namespace existence (directory existence) as a list of user ids;
  * `created_at` timestamps as Nat (the ISO-8601 strings produced by
    utc_now_iso compare lexicographically in chronological order, so the
    SQL `ORDER BY created_at` is faithfully the numeric order here).

SQLite's `SELECT ... ORDER BY created_at ASC LIMIT 1` is modelled as the
first record in rowid order among those with minimal created_at (the index
idx_images_user_created orders equal keys by rowid).
-/
import Mathlib

namespace ImageApi

/-- MAX_IMAGES_PER_USER in src/main.py. -/
def MAX_IMAGES_PER_USER : Nat := 10

/-- ALLOWED_CONTENT_TYPES in src/main.py. -/
def ALLOWED_CONTENT_TYPES : List String :=
  ["image/png", "image/jpeg", "image/gif", "image/webp", "image/bmp"]

/-- One row of the `images` table:
(user_id TEXT, image_index INTEGER, file_path TEXT, created_at TEXT). -/
structure SlotRecord where
  userId : String
  imageIndex : Int
  filePath : String
  createdAt : Nat
deriving DecidableEq, Repr

/-- Whole-system state: the `images` table in rowid order, the blob store
(filesystem), and the set of existing user directories. -/
structure AppState where
  table : List SlotRecord
  blobs : List (String × Nat)
  userDirs : List String
deriving DecidableEq, Repr

/-- The empty state (fresh database, empty upload root). -/
def AppState.empty : AppState := ⟨[], [], []⟩

/-- Outcomes raised via HTTPException in src/main.py, distinguished by their
detail message. `invalidUserId` covers both 400s of safe_user_id. -/
inductive ApiError where
  | invalidUserId
  | userNotFound
  | unsupportedMediaType
  | imageNotFound
deriving DecidableEq, Repr

/-- `os.path.isfile` over the modelled blob store. -/
def blobExists (bs : List (String × Nat)) (path : String) : Bool :=
  bs.any (fun pc => pc.1 == path)

/-- Read a blob's content (`open(path).read()` / FileResponse body). -/
def blobRead (bs : List (String × Nat)) (path : String) : Option Nat :=
  (bs.find? (fun pc => pc.1 == path)).map (fun pc => pc.2)

/-- `open(path, "wb")` + write: overwrite whatever was at `path`. -/
def blobWrite (bs : List (String × Nat)) (path : String) (c : Nat) : List (String × Nat) :=
  (path, c) :: bs.filter (fun pc => !(pc.1 == path))

/-- `os.remove(path)`. -/
def blobDelete (bs : List (String × Nat)) (path : String) : List (String × Nat) :=
  bs.filter (fun pc => !(pc.1 == path))

/-- Python `not user_id or user_id.strip() == ""`: the id is empty or all
whitespace. -/
def isBlank (uid : String) : Bool := uid.data.all (fun c => c.isWhitespace)

/-- Python `".." in user_id`: two consecutive dots occur. -/
def hasDotDot : List Char → Bool
  | [] => false
  | [_] => false
  | a :: b :: rest => (a == '.' && b == '.') || hasDotDot (b :: rest)

/-- safe_user_id's acceptance predicate (src/main.py lines 28-34): nonempty
after strip, no path separators, no "..". -/
def safeUserIdOk (uid : String) : Bool :=
  !(isBlank uid) && !(uid.data.contains '/') && !(uid.data.contains '\\') &&
    !(hasDotDot uid.data)

/-- user_dir (src/main.py line 64): os.path.join(UPLOAD_ROOT, user_id) with
UPLOAD_ROOT = "uploads". -/
def userDir (uid : String) : String := "uploads/" ++ uid

/-- user_exists (src/main.py line 68): the user's folder exists. -/
def userExists (st : AppState) (uid : String) : Bool :=
  st.userDirs.contains uid

/-- Index of the LAST occurrence of `c` in the list, if any
(Python str.rfind restricted to single characters). -/
def rfindIdx (c : Char) : List Char → Option Nat
  | [] => none
  | a :: as =>
    match rfindIdx c as with
    | some i => some (i + 1)
    | none => if a = c then some 0 else none

/-- The extension part of os.path.splitext (posixpath): the suffix starting
at the last dot, provided that dot comes after the last "/" and some non-dot
character precedes it within the basename. -/
def splitextExt (p : String) : String :=
  let cs := p.data
  let start := match rfindIdx '/' cs with | some i => i + 1 | none => 0
  match rfindIdx '.' cs with
  | none => ""
  | some dotIdx =>
    if start ≤ dotIdx ∧ ((cs.drop start).take (dotIdx - start)).any (fun a => !(a == '.')) then
      String.mk (cs.drop dotIdx)
    else ""

/-- Python str.lower restricted to ASCII (all strings the code compares are
ASCII content types and extensions). -/
def strLower (s : String) : String := String.mk (s.data.map Char.toLower)

/-- infer_extension (src/main.py lines 130-152): prefer the filename's
extension, fall back on the content type, default ".png". -/
def inferExtension (filename contentType : String) : String :=
  let ext := strLower (splitextExt filename)
  if ext ∈ [".png", ".jpg", ".jpeg", ".gif", ".webp", ".bmp"] then ext
  else
    let ct := strLower contentType
    if ct = "image/png" then ".png"
    else if ct = "image/jpeg" then ".jpg"
    else if ct = "image/gif" then ".gif"
    else if ct = "image/webp" then ".webp"
    else if ct = "image/bmp" then ".bmp"
    else ".png"

/-- mimetypes.guess_type restricted to the extensions the app ever writes;
any other extension yields none (so "application/octet-stream" downstream). -/
def guessMediaType (path : String) : Option String :=
  let ext := strLower (splitextExt path)
  if ext = ".png" then some "image/png"
  else if ext = ".jpg" ∨ ext = ".jpeg" then some "image/jpeg"
  else if ext = ".gif" then some "image/gif"
  else if ext = ".webp" then some "image/webp"
  else if ext = ".bmp" then some "image/bmp"
  else none

/-- The rows of one user, in rowid order (the WHERE user_id=? filter). -/
def userRows (table : List SlotRecord) (uid : String) : List SlotRecord :=
  table.filter (fun r => r.userId == uid)

/-- Stable insertion by ascending image_index (for ORDER BY image_index ASC). -/
def insertByIndex (r : SlotRecord) : List SlotRecord → List SlotRecord
  | [] => [r]
  | b :: bs => if r.imageIndex < b.imageIndex then r :: b :: bs else b :: insertByIndex r bs

/-- get_user_images (src/main.py lines 73-78): the user's rows ordered by
image_index ascending. -/
def get_user_images (table : List SlotRecord) (uid : String) : List SlotRecord :=
  (userRows table uid).foldr insertByIndex []

/-- The Python loop `for i in range(10): if i not in used: return i` with the
defensive `return 0` when the loop falls through. -/
def firstFreeFrom (used : List Int) : List Nat → Int
  | [] => 0
  | i :: is => if (Int.ofNat i) ∈ used then firstFreeFrom used is else Int.ofNat i

/-- One comparison step of the minimum-by-created_at scan: keep the earlier
accumulated row on a created_at tie. -/
def olderOf (acc : Option SlotRecord) (r : SlotRecord) : Option SlotRecord :=
  match acc with
  | none => some r
  | some b => if r.createdAt < b.createdAt then some r else some b

/-- First row (rowid order) among those with minimal created_at: the row
fetchone returns for `ORDER BY created_at ASC LIMIT 1` (the covering index
orders equal created_at keys by rowid). -/
def oldestFirst (rows : List SlotRecord) : Option SlotRecord :=
  rows.foldl olderOf none

/-- pick_index_for_upload (src/main.py lines 81-107). -/
def pick_index_for_upload (table : List SlotRecord) (uid : String) : Int :=
  let rows := get_user_images table uid
  if rows.length < MAX_IMAGES_PER_USER then
    firstFreeFrom (rows.map (fun r => r.imageIndex)) (List.range MAX_IMAGES_PER_USER)
  else
    match oldestFirst (userRows table uid) with
    | none => 0
    | some oldest => oldest.imageIndex

/-- delete_existing_at_index (src/main.py lines 110-127): look up the row at
(user_id, idx); if present, remove its blob when the path is nonempty and the
file exists, then delete the row(s). -/
def delete_existing_at_index (st : AppState) (uid : String) (idx : Int) : AppState :=
  match st.table.find? (fun r => r.userId == uid && r.imageIndex == idx) with
  | none => st
  | some row =>
    let bs :=
      if row.filePath ≠ "" ∧ blobExists st.blobs row.filePath then
        blobDelete st.blobs row.filePath
      else st.blobs
    { st with
      blobs := bs
      table := st.table.filter (fun r => !(r.userId == uid && r.imageIndex == idx)) }

/-- create_user (src/main.py lines 164-168): os.makedirs(user_dir, exist_ok). -/
def create_user (st : AppState) (uid : String) : Except ApiError AppState :=
  if !(safeUserIdOk uid) then .error .invalidUserId
  else .ok { st with userDirs := if st.userDirs.contains uid then st.userDirs else uid :: st.userDirs }

/-- os.path.join(user_dir(user_id), f"{idx}{ext}") (src/main.py line 194). -/
def targetPath (uid : String) (idx : Int) (ext : String) : String :=
  userDir uid ++ "/" ++ toString idx ++ ext

/-- upload_image (src/main.py lines 171-213). `content` is the uploaded byte
stream's identity, `now` the value of utc_now_iso at the insert. -/
def upload_image (st : AppState) (uid filename contentType : String) (content : Nat)
    (now : Nat) : Except ApiError (AppState × Int) :=
  if !(safeUserIdOk uid) then .error .invalidUserId
  else if !(userExists st uid) then .error .userNotFound
  else if !(ALLOWED_CONTENT_TYPES.contains (strLower contentType)) then
    .error .unsupportedMediaType
  else
    let ext := inferExtension filename contentType
    let idx := pick_index_for_upload st.table uid
    let st1 := delete_existing_at_index st uid idx
    let path := targetPath uid idx ext
    let st2 := { st1 with blobs := blobWrite st1.blobs path content }
    let st3 := { st2 with
      table := st2.table ++ [⟨uid, idx, path, now⟩] }
    .ok (st3, idx)

/-- get_single_image (src/main.py lines 216-237): range check, row lookup,
file existence check, then the blob with a media type guessed from the path. -/
def get_single_image (st : AppState) (uid : String) (index : Int) :
    Except ApiError (Nat × String) :=
  if !(safeUserIdOk uid) then .error .invalidUserId
  else if index < 0 ∨ MAX_IMAGES_PER_USER ≤ index then .error .imageNotFound
  else
    match st.table.find? (fun r => r.userId == uid && r.imageIndex == index) with
    | none => .error .imageNotFound
    | some row =>
      if row.filePath = "" then .error .imageNotFound
      else
        match blobRead st.blobs row.filePath with
        | none => .error .imageNotFound
        | some c => .ok (c, (guessMediaType row.filePath).getD "application/octet-stream")

/-- get_all_images (src/main.py lines 240-252): indices of the user's rows in
image_index order. -/
def get_all_images (st : AppState) (uid : String) : Except ApiError (List Int) :=
  if !(safeUserIdOk uid) then .error .invalidUserId
  else if !(userExists st uid) then .error .userNotFound
  else .ok ((get_user_images st.table uid).map (fun r => r.imageIndex))

/-- Modelled from the spec: the Clear-All operation of spec section 4.4 has no
counterpart in src/main.py (no DELETE endpoint exists there). Per the spec it
deletes every Slot Table record of the user and attempts to delete every blob
file associated with them, swallowing individual blob deletion failures. -/
def clear_all_images (st : AppState) (uid : String) : AppState :=
  { st with
    table := st.table.filter (fun r => !(r.userId == uid))
    blobs := (userRows st.table uid).foldl (fun bs r => blobDelete bs r.filePath) st.blobs }

/-! ### Basic lemmas about the table helpers -/

theorem perm_insertByIndex (r : SlotRecord) (l : List SlotRecord) :
    List.Perm (insertByIndex r l) (r :: l) := by
  induction l with
  | nil => simp [insertByIndex]
  | cons b bs ih =>
    simp only [insertByIndex]
    split
    · exact List.Perm.refl _
    · exact (List.Perm.cons b ih).trans (List.Perm.swap r b bs)

theorem get_user_images_perm (table : List SlotRecord) (uid : String) :
    List.Perm (get_user_images table uid) (userRows table uid) := by
  unfold get_user_images
  generalize userRows table uid = l
  induction l with
  | nil => exact List.Perm.refl _
  | cons a as ih =>
    simp only [List.foldr_cons]
    exact (perm_insertByIndex a _).trans (List.Perm.cons a ih)

theorem length_get_user_images (table : List SlotRecord) (uid : String) :
    (get_user_images table uid).length = (userRows table uid).length :=
  (get_user_images_perm table uid).length_eq

theorem mem_userRows {table : List SlotRecord} {uid : String} {r : SlotRecord} :
    r ∈ userRows table uid ↔ r ∈ table ∧ r.userId = uid := by
  simp [userRows, List.mem_filter]

/-- If fewer than 10 indices are used, some index in [0, 10) is free. -/
theorem exists_free_index (used : List Int)
    (hlen : used.length < 10) : ∃ i : Nat, i < 10 ∧ Int.ofNat i ∉ used := by
  by_contra h
  push_neg at h
  have hsub : ((List.range 10).map Int.ofNat) ⊆ used := by
    intro x hx
    simp only [List.mem_map, List.mem_range] at hx
    obtain ⟨i, hi, rfl⟩ := hx
    exact h i hi
  have hnd2 : ((List.range 10).map Int.ofNat).Nodup :=
    (List.nodup_range 10).map (fun a b hab => Int.ofNat.inj hab)
  have hle := (List.subperm_of_subset hnd2 hsub).length_le
  simp only [List.length_map, List.length_range] at hle
  omega

theorem firstFreeFrom_cons_mem {used : List Int} {i : Nat} {l : List Nat}
    (h : Int.ofNat i ∈ used) : firstFreeFrom used (i :: l) = firstFreeFrom used l := by
  simp only [firstFreeFrom, if_pos h]

theorem firstFreeFrom_cons_notMem {used : List Int} {i : Nat} {l : List Nat}
    (h : Int.ofNat i ∉ used) : firstFreeFrom used (i :: l) = Int.ofNat i := by
  simp only [firstFreeFrom, if_neg h]

/-- The loop of pick_index_for_upload: on range' s n it returns the first
value not in `used`, provided one exists. -/
theorem firstFreeFrom_range' (used : List Int) :
    ∀ (n s : Nat), (∃ i : Nat, s ≤ i ∧ i < s + n ∧ Int.ofNat i ∉ used) →
      ∃ j : Nat, s ≤ j ∧ j < s + n ∧
        firstFreeFrom used (List.range' s n) = Int.ofNat j ∧
        Int.ofNat j ∉ used ∧ ∀ m : Nat, s ≤ m → m < j → Int.ofNat m ∈ used := by
  intro n
  induction n with
  | zero => intro s ⟨i, h1, h2, _⟩; omega
  | succ n ih =>
    intro s hex
    rw [List.range'_succ]
    by_cases hs : Int.ofNat s ∈ used
    · obtain ⟨i, hi1, hi2, hi3⟩ := hex
      have hi1' : s + 1 ≤ i := by
        rcases Nat.eq_or_lt_of_le hi1 with h | h
        · exact absurd hs (h ▸ hi3)
        · exact h
      obtain ⟨j, hj1, hj2, hj3, hj4, hj5⟩ := ih (s + 1) ⟨i, hi1', by omega, hi3⟩
      refine ⟨j, by omega, by omega, ?_, hj4, ?_⟩
      · rw [firstFreeFrom_cons_mem hs]; exact hj3
      · intro m hm1 hm2
        rcases Nat.eq_or_lt_of_le hm1 with h | h
        · exact h ▸ hs
        · exact hj5 m h hm2
    · exact ⟨s, le_refl s, by omega, firstFreeFrom_cons_notMem hs, hs, by omega⟩

/-! ### C1: allocation below capacity takes the smallest free index -/

/-- Below capacity, pick_index_for_upload returns the smallest index in
[0, 10) not occurring among the user's occupied indices. -/
theorem pick_smallest_free_aux (table : List SlotRecord) (uid : String)
    (hlen : (userRows table uid).length < MAX_IMAGES_PER_USER) :
    ∃ n : Nat, pick_index_for_upload table uid = Int.ofNat n ∧
      n < MAX_IMAGES_PER_USER ∧
      Int.ofNat n ∉ (userRows table uid).map (fun r => r.imageIndex) ∧
      ∀ m : Nat, m < n → Int.ofNat m ∈ (userRows table uid).map (fun r => r.imageIndex) := by
  have hperm := get_user_images_perm table uid
  have hmem : ∀ x : Int,
      x ∈ (get_user_images table uid).map (fun r => r.imageIndex) ↔
        x ∈ (userRows table uid).map (fun r => r.imageIndex) :=
    fun x => (hperm.map (fun r => r.imageIndex)).mem_iff
  have hlen1 : (get_user_images table uid).length < MAX_IMAGES_PER_USER := by
    rw [hperm.length_eq]; exact hlen
  have hlenmap :
      ((get_user_images table uid).map (fun r => r.imageIndex)).length < 10 := by
    simpa [MAX_IMAGES_PER_USER, List.length_map] using hlen1
  obtain ⟨i, hi10, hifree⟩ :=
    exists_free_index ((get_user_images table uid).map (fun r => r.imageIndex)) hlenmap
  obtain ⟨j, hj0, hj10, hjeq, hjfree, hjmin⟩ :=
    firstFreeFrom_range' ((get_user_images table uid).map (fun r => r.imageIndex))
      10 0 ⟨i, Nat.zero_le i, by omega, hifree⟩
  refine ⟨j, ?_, by simpa [MAX_IMAGES_PER_USER] using hj10, ?_, ?_⟩
  · simp only [pick_index_for_upload, if_pos hlen1]
    rw [show (List.range MAX_IMAGES_PER_USER) = List.range' 0 10 from
      List.range_eq_range' 10]
    exact hjeq
  · exact fun hc => hjfree ((hmem (Int.ofNat j)).mpr hc)
  · exact fun m hm => (hmem (Int.ofNat m)).mp (hjmin m (Nat.zero_le m) hm)

/-- Concrete table with occupied indices {0, 2, 3} for one user. -/
def exTableC1 : List SlotRecord :=
  [⟨"u", 0, "uploads/u/0.png", 1⟩, ⟨"u", 2, "uploads/u/2.png", 2⟩,
   ⟨"u", 3, "uploads/u/3.png", 3⟩]

/-! ### C2: eviction picks the first-inserted row among those with minimal
created_at -/

theorem oldestFirst_go (l : List SlotRecord) : ∀ b : SlotRecord,
    (List.foldl olderOf (some b) l = some b ∧ ∀ x ∈ l, b.createdAt ≤ x.createdAt) ∨
    (∃ l1 r l2, l = l1 ++ r :: l2 ∧ List.foldl olderOf (some b) l = some r ∧
      r.createdAt < b.createdAt ∧ (∀ x ∈ l, r.createdAt ≤ x.createdAt) ∧
      ∀ x ∈ l1, r.createdAt < x.createdAt) := by
  induction l with
  | nil => intro b; left; simp
  | cons a as ih =>
    intro b
    by_cases hab : a.createdAt < b.createdAt
    · right
      have hstep : List.foldl olderOf (some b) (a :: as) = List.foldl olderOf (some a) as := by
        simp [olderOf, hab]
      rcases ih a with ⟨heq, hmin⟩ | ⟨l1, r, l2, hsplit, heq, hlt, hmin, hpre⟩
      · refine ⟨[], a, as, by simp, by rw [hstep]; exact heq, hab, ?_, by simp⟩
        intro x hx
        rcases List.mem_cons.mp hx with rfl | hx
        · exact le_refl _
        · exact hmin x hx
      · refine ⟨a :: l1, r, l2, by simp [hsplit], by rw [hstep]; exact heq,
          lt_trans hlt hab, ?_, ?_⟩
        · intro x hx
          rcases List.mem_cons.mp hx with rfl | hx
          · exact le_of_lt hlt
          · exact hmin x hx
        · intro x hx
          rcases List.mem_cons.mp hx with rfl | hx
          · exact hlt
          · exact hpre x hx
    · have hstep : List.foldl olderOf (some b) (a :: as) = List.foldl olderOf (some b) as := by
        simp [olderOf, hab]
      rcases ih b with ⟨heq, hmin⟩ | ⟨l1, r, l2, hsplit, heq, hlt, hmin, hpre⟩
      · left
        refine ⟨by rw [hstep]; exact heq, ?_⟩
        intro x hx
        rcases List.mem_cons.mp hx with rfl | hx
        · omega
        · exact hmin x hx
      · right
        refine ⟨a :: l1, r, l2, by simp [hsplit], by rw [hstep]; exact heq, hlt, ?_, ?_⟩
        · intro x hx
          rcases List.mem_cons.mp hx with rfl | hx
          · omega
          · exact hmin x hx
        · intro x hx
          rcases List.mem_cons.mp hx with rfl | hx
          · omega
          · exact hpre x hx

/-- `ORDER BY created_at ASC LIMIT 1` on a nonempty row list returns the
first row in rowid order among those attaining the minimal created_at. -/
theorem oldestFirst_spec (rows : List SlotRecord) (h : rows ≠ []) :
    ∃ l1 r l2, rows = l1 ++ r :: l2 ∧ oldestFirst rows = some r ∧
      (∀ x ∈ rows, r.createdAt ≤ x.createdAt) ∧
      ∀ x ∈ l1, r.createdAt < x.createdAt := by
  match rows, h with
  | a :: as, _ =>
    have hstart : oldestFirst (a :: as) = List.foldl olderOf (some a) as := by
      simp [oldestFirst, olderOf]
    rcases oldestFirst_go as a with ⟨heq, hmin⟩ | ⟨l1, r, l2, hsplit, heq, hlt, hmin, hpre⟩
    · refine ⟨[], a, as, by simp, by rw [hstart]; exact heq, ?_, by simp⟩
      intro x hx
      rcases List.mem_cons.mp hx with rfl | hx
      · exact le_refl _
      · exact hmin x hx
    · refine ⟨a :: l1, r, l2, by simp [hsplit], by rw [hstart]; exact heq, ?_, ?_⟩
      · intro x hx
        rcases List.mem_cons.mp hx with rfl | hx
        · exact le_of_lt hlt
        · exact hmin x hx
      · intro x hx
        rcases List.mem_cons.mp hx with rfl | hx
        · exact hlt
        · exact hpre x hx

/-- A full user (10 rows) where the minimal created_at = 7 is attained by the
rows at indices 5 and 1, the row at index 5 having been inserted first. -/
def exTableC2 : List SlotRecord :=
  [⟨"u", 5, "uploads/u/5.png", 7⟩, ⟨"u", 1, "uploads/u/1.png", 7⟩,
   ⟨"u", 0, "uploads/u/0.png", 8⟩, ⟨"u", 2, "uploads/u/2.png", 9⟩,
   ⟨"u", 3, "uploads/u/3.png", 10⟩, ⟨"u", 4, "uploads/u/4.png", 11⟩,
   ⟨"u", 6, "uploads/u/6.png", 12⟩, ⟨"u", 7, "uploads/u/7.png", 13⟩,
   ⟨"u", 8, "uploads/u/8.png", 14⟩, ⟨"u", 9, "uploads/u/9.png", 15⟩]

theorem pick_evicts_oldest_aux (table : List SlotRecord) (uid : String)
    (hlen : (userRows table uid).length = MAX_IMAGES_PER_USER) :
    ∃ l1 r l2, userRows table uid = l1 ++ r :: l2 ∧
      pick_index_for_upload table uid = r.imageIndex ∧
      (∀ x ∈ userRows table uid, r.createdAt ≤ x.createdAt) ∧
      ∀ x ∈ l1, r.createdAt < x.createdAt := by
  have hne : userRows table uid ≠ [] := by
    intro h
    rw [h] at hlen
    simp [MAX_IMAGES_PER_USER] at hlen
  obtain ⟨l1, r, l2, hsplit, heq, hmin, hpre⟩ := oldestFirst_spec (userRows table uid) hne
  have hlen1 : ¬ (get_user_images table uid).length < MAX_IMAGES_PER_USER := by
    rw [(get_user_images_perm table uid).length_eq, hlen]
    omega
  refine ⟨l1, r, l2, hsplit, ?_, hmin, hpre⟩
  simp only [pick_index_for_upload, if_neg hlen1, heq]

/-! ### Reachable-state invariant -/

/-- The primary-key projection (user_id, image_index) of the table. -/
def pkList (table : List SlotRecord) : List (String × Int) :=
  table.map (fun r => (r.userId, r.imageIndex))

/-- Invariant of reachable tables: primary-key uniqueness, indices in
[0, 10), nonempty file paths. -/
def TableOk (table : List SlotRecord) : Prop :=
  (pkList table).Nodup ∧
  (∀ r ∈ table, 0 ≤ r.imageIndex ∧ r.imageIndex < 10) ∧
  (∀ r ∈ table, r.filePath ≠ "")

theorem tableOk_nil : TableOk [] := ⟨List.nodup_nil, by simp, by simp⟩

theorem pkList_eq (table : List SlotRecord) :
    pkList table = table.map (fun r => (r.userId, r.imageIndex)) := rfl

theorem tableOk_sublist {t1 t2 : List SlotRecord} (hs : List.Sublist t1 t2)
    (h : TableOk t2) : TableOk t1 := by
  refine ⟨?_, fun r hr => h.2.1 r (hs.subset hr), fun r hr => h.2.2 r (hs.subset hr)⟩
  rw [pkList_eq]
  have h1 := h.1
  rw [pkList_eq] at h1
  exact h1.sublist (hs.map (fun r => (r.userId, r.imageIndex)))

/-- Primary-key uniqueness gives per-user uniqueness of indices. -/
theorem indices_nodup_of_pk {table : List SlotRecord} (uid : String)
    (h : (pkList table).Nodup) :
    ((userRows table uid).map (fun r => r.imageIndex)).Nodup := by
  have hsub : List.Sublist (pkList (userRows table uid)) (pkList table) := by
    rw [pkList_eq, pkList_eq]
    exact (List.filter_sublist table).map (fun r => (r.userId, r.imageIndex))
  have hnd : (pkList (userRows table uid)).Nodup := h.sublist hsub
  have heq : pkList (userRows table uid) =
      ((userRows table uid).map (fun r => r.imageIndex)).map (fun i => (uid, i)) := by
    rw [List.map_map]
    apply List.map_congr_left
    intro r hr
    have huid := (mem_userRows.mp hr).2
    simp [huid]
  rw [heq] at hnd
  exact hnd.of_map (fun i => (uid, i))

/-- A nodup list of integers all lying in [0, 10) has at most 10 elements. -/
theorem count_le_of_nodup_range (l : List Int) (hnd : l.Nodup)
    (hrange : ∀ x ∈ l, 0 ≤ x ∧ x < 10) : l.length ≤ 10 := by
  have hsub : l ⊆ (List.range 10).map Int.ofNat := by
    intro x hx
    obtain ⟨h0, h10⟩ := hrange x hx
    simp only [List.mem_map, List.mem_range]
    exact ⟨x.toNat, by omega, Int.toNat_of_nonneg h0⟩
  have hle := (List.subperm_of_subset hnd hsub).length_le
  simpa using hle

/-- Under the invariant a user occupies at most 10 rows. -/
theorem userRows_length_le {table : List SlotRecord} (uid : String)
    (hok : TableOk table) : (userRows table uid).length ≤ 10 := by
  have hnd := indices_nodup_of_pk uid hok.1
  have hrange : ∀ x ∈ (userRows table uid).map (fun r => r.imageIndex),
      0 ≤ x ∧ x < 10 := by
    intro x hx
    simp only [List.mem_map] at hx
    obtain ⟨r, hr, rfl⟩ := hx
    exact hok.2.1 r (mem_userRows.mp hr).1
  have hle := count_le_of_nodup_range _ hnd hrange
  simpa using hle

theorem delete_table_sublist (st : AppState) (uid : String) (idx : Int) :
    List.Sublist (delete_existing_at_index st uid idx).table st.table := by
  unfold delete_existing_at_index
  split
  · exact List.Sublist.refl _
  · exact List.filter_sublist st.table

/-- After delete_existing_at_index no row with the deleted key remains. -/
theorem delete_no_key (st : AppState) (uid : String) (idx : Int) :
    ∀ r ∈ (delete_existing_at_index st uid idx).table,
      ¬(r.userId = uid ∧ r.imageIndex = idx) := by
  unfold delete_existing_at_index
  split
  next hfind =>
    intro r hr hcon
    have hnone := List.find?_eq_none.mp hfind r hr
    simp [hcon.1, hcon.2] at hnone
  next row hfind =>
    intro r hr hcon
    simp only [List.mem_filter] at hr
    have hb := hr.2
    simp [hcon.1, hcon.2] at hb

theorem blobRead_write_self (bs : List (String × Nat)) (p : String) (c : Nat) :
    blobRead (blobWrite bs p c) p = some c := by
  simp [blobRead, blobWrite]

theorem targetPath_length (uid : String) (idx : Int) (ext : String) :
    (targetPath uid idx ext).length =
      8 + uid.length + 1 + (toString idx).length + ext.length := by
  have h1 : ("uploads/" : String).length = 8 := rfl
  have h2 : ("/" : String).length = 1 := rfl
  simp only [targetPath, userDir, String.length_append, h1, h2]

theorem targetPath_ne_empty (uid : String) (idx : Int) (ext : String) :
    targetPath uid idx ext ≠ "" := by
  intro h
  have hlen := congrArg String.length h
  rw [targetPath_length] at hlen
  simp at hlen

/-- Success inversion for upload_image: recover the checks passed, the chosen
index and the successor state. -/
theorem upload_ok_elim {st : AppState} {uid filename contentType : String}
    {content now : Nat} {st1 : AppState} {idx : Int}
    (h : upload_image st uid filename contentType content now = .ok (st1, idx)) :
    safeUserIdOk uid = true ∧ userExists st uid = true ∧
    ALLOWED_CONTENT_TYPES.contains (strLower contentType) = true ∧
    idx = pick_index_for_upload st.table uid ∧
    st1 = { delete_existing_at_index st uid idx with
            blobs := blobWrite (delete_existing_at_index st uid idx).blobs
              (targetPath uid idx (inferExtension filename contentType)) content
            table := (delete_existing_at_index st uid idx).table ++
              [⟨uid, idx, targetPath uid idx (inferExtension filename contentType), now⟩] } := by
  unfold upload_image at h
  cases h1 : safeUserIdOk uid with
  | false => rw [h1] at h; simp at h
  | true =>
    rw [h1] at h
    cases h2 : userExists st uid with
    | false => rw [h2] at h; simp at h
    | true =>
      rw [h2] at h
      cases h3 : ALLOWED_CONTENT_TYPES.contains (strLower contentType) with
      | false => rw [h3] at h; simp at h
      | true =>
        rw [h3] at h
        simp only [Bool.not_true, Bool.false_eq_true, if_false, Except.ok.injEq,
          Prod.mk.injEq] at h
        obtain ⟨hst, hidx⟩ := h
        subst hidx
        subst hst
        exact ⟨rfl, rfl, rfl, rfl, rfl⟩

/-- Under the invariant the allocator always returns an index in [0, 10). -/
theorem pick_index_range {table : List SlotRecord} {uid : String} (hok : TableOk table) :
    0 ≤ pick_index_for_upload table uid ∧ pick_index_for_upload table uid < 10 := by
  rcases Nat.lt_or_ge (userRows table uid).length MAX_IMAGES_PER_USER with hlt | hge
  · obtain ⟨n, hn1, hn2, _, _⟩ := pick_smallest_free_aux table uid hlt
    rw [hn1]
    simp only [MAX_IMAGES_PER_USER] at hn2
    show (0 : Int) ≤ (n : Int) ∧ (n : Int) < 10
    omega
  · have hle := userRows_length_le uid hok
    have hlen : (userRows table uid).length = MAX_IMAGES_PER_USER := by
      simp only [MAX_IMAGES_PER_USER] at hge ⊢
      omega
    obtain ⟨l1, r, l2, hsplit, heq, _, _⟩ := pick_evicts_oldest_aux table uid hlen
    rw [heq]
    have hmem : r ∈ userRows table uid := by rw [hsplit]; simp
    exact hok.2.1 r (mem_userRows.mp hmem).1

/-- A successful upload preserves the table invariant. -/
theorem tableOk_upload {st : AppState} {uid filename contentType : String}
    {content now : Nat} {st1 : AppState} {idx : Int} (hok : TableOk st.table)
    (h : upload_image st uid filename contentType content now = .ok (st1, idx)) :
    TableOk st1.table := by
  obtain ⟨-, -, -, hidx, hst⟩ := upload_ok_elim h
  have hrange : 0 ≤ idx ∧ idx < 10 := by rw [hidx]; exact pick_index_range hok
  have hdel : TableOk (delete_existing_at_index st uid idx).table :=
    tableOk_sublist (delete_table_sublist st uid idx) hok
  have hnokey := delete_no_key st uid idx
  rw [hst]
  show TableOk ((delete_existing_at_index st uid idx).table ++
    [⟨uid, idx, targetPath uid idx (inferExtension filename contentType), now⟩])
  refine ⟨?_, ?_, ?_⟩
  · rw [pkList_eq, List.map_append, List.nodup_append]
    refine ⟨by rw [← pkList_eq]; exact hdel.1, by simp, ?_⟩
    intro p hp hq
    simp only [List.map_cons, List.map_nil, List.mem_singleton] at hq
    simp only [List.mem_map] at hp
    obtain ⟨r, hr, rfl⟩ := hp
    rw [Prod.mk.injEq] at hq
    exact hnokey r hr hq
  · intro r hr
    rcases List.mem_append.mp hr with hr | hr
    · exact hdel.2.1 r hr
    · rw [List.mem_singleton] at hr
      rw [hr]
      exact hrange
  · intro r hr
    rcases List.mem_append.mp hr with hr | hr
    · exact hdel.2.2 r hr
    · rw [List.mem_singleton] at hr
      rw [hr]
      exact targetPath_ne_empty uid idx (inferExtension filename contentType)

/-- One upload request: user id, filename, declared content type, content
identity, and the insertion timestamp. -/
structure UploadReq where
  uid : String
  filename : String
  contentType : String
  content : Nat
  now : Nat

/-- Serve one upload request: on failure the state is unchanged (all error
paths of upload_image return before mutating anything). -/
def applyUpload (st : AppState) (q : UploadReq) : AppState :=
  match upload_image st q.uid q.filename q.contentType q.content q.now with
  | .ok (st1, _) => st1
  | .error _ => st

/-- Serve a sequence of upload requests. -/
def runUploads (st : AppState) (qs : List UploadReq) : AppState :=
  qs.foldl applyUpload st

theorem tableOk_applyUpload {st : AppState} (hok : TableOk st.table) (q : UploadReq) :
    TableOk (applyUpload st q).table := by
  unfold applyUpload
  split
  next st1 i heq => exact tableOk_upload hok heq
  next => exact hok

theorem tableOk_runUploads {st : AppState} (hok : TableOk st.table)
    (qs : List UploadReq) : TableOk (runUploads st qs).table := by
  induction qs generalizing st with
  | nil => exact hok
  | cons q qs ih => exact ih (tableOk_applyUpload hok q)

/-! ### C4: metadata replacement after eviction -/

/-- After a successful upload against a full user, the evicted slot existed,
exactly one row carries the reused key, and it is the new row whose file_path
is the freshly written blob's path holding the new content. -/
theorem upload_replaces_aux {st : AppState} {uid filename contentType : String}
    {content now : Nat} {st1 : AppState} {idx : Int}
    (hfull : (userRows st.table uid).length = MAX_IMAGES_PER_USER)
    (h : upload_image st uid filename contentType content now = .ok (st1, idx)) :
    (∃ old ∈ st.table, old.userId = uid ∧ old.imageIndex = idx) ∧
    st1.table.filter (fun r => r.userId == uid && r.imageIndex == idx) =
      [⟨uid, idx, targetPath uid idx (inferExtension filename contentType), now⟩] ∧
    blobRead st1.blobs (targetPath uid idx (inferExtension filename contentType)) =
      some content := by
  obtain ⟨-, -, -, hidx, hst⟩ := upload_ok_elim h
  have hnokey := delete_no_key st uid idx
  refine ⟨?_, ?_, ?_⟩
  · obtain ⟨l1, r, l2, hsplit, heq, -, -⟩ := pick_evicts_oldest_aux st.table uid hfull
    have hmem : r ∈ userRows st.table uid := by rw [hsplit]; simp
    exact ⟨r, (mem_userRows.mp hmem).1, (mem_userRows.mp hmem).2, by rw [hidx, heq]⟩
  · rw [hst]
    show ((delete_existing_at_index st uid idx).table ++
        ([⟨uid, idx, targetPath uid idx (inferExtension filename contentType), now⟩] :
          List SlotRecord)).filter
        (fun r : SlotRecord => r.userId == uid && r.imageIndex == idx) =
      [⟨uid, idx, targetPath uid idx (inferExtension filename contentType), now⟩]
    rw [List.filter_append]
    have h1 : (delete_existing_at_index st uid idx).table.filter
        (fun r => r.userId == uid && r.imageIndex == idx) = [] := by
      rw [List.filter_eq_nil_iff]
      intro r hr hb
      apply hnokey r hr
      simpa using hb
    rw [h1]
    simp
  · rw [hst]
    show blobRead (blobWrite (delete_existing_at_index st uid idx).blobs
        (targetPath uid idx (inferExtension filename contentType)) content)
        (targetPath uid idx (inferExtension filename contentType)) = some content
    exact blobRead_write_self _ _ _

/-! ### Error paths -/

theorem upload_user_not_found_aux {st : AppState} {uid filename contentType : String}
    {content now : Nat} (hvalid : safeUserIdOk uid = true)
    (hnouser : userExists st uid = false) :
    upload_image st uid filename contentType content now = .error .userNotFound := by
  unfold upload_image
  rw [hvalid, hnouser]
  simp

theorem get_all_user_not_found_aux {st : AppState} {uid : String}
    (hvalid : safeUserIdOk uid = true) (hnouser : userExists st uid = false) :
    get_all_images st uid = .error .userNotFound := by
  unfold get_all_images
  rw [hvalid, hnouser]
  simp

theorem applyUpload_of_error {st : AppState} {q : UploadReq} {e : ApiError}
    (h : upload_image st q.uid q.filename q.contentType q.content q.now = .error e) :
    applyUpload st q = st := by
  unfold applyUpload
  rw [h]

/-- Evaluation of get_single_image once the user id is valid and the index is
in range. -/
theorem get_single_eval {st : AppState} {uid : String} {index : Int}
    (hvalid : safeUserIdOk uid = true)
    (hinr : ¬(index < 0 ∨ (MAX_IMAGES_PER_USER : Int) ≤ index)) :
    get_single_image st uid index =
      match st.table.find? (fun r => r.userId == uid && r.imageIndex == index) with
      | none => .error .imageNotFound
      | some row =>
        if row.filePath = "" then .error .imageNotFound
        else match blobRead st.blobs row.filePath with
          | none => .error .imageNotFound
          | some c =>
            .ok (c, (guessMediaType row.filePath).getD "application/octet-stream") := by
  unfold get_single_image
  rw [hvalid]
  simp only [Bool.not_true, Bool.false_eq_true, if_false]
  rw [if_neg hinr]

/-- get_single_image never consults the namespace: with no row for the user it
reports imageNotFound (whether or not the user was ever created). -/
theorem get_single_no_rows_aux {st : AppState} {uid : String} {index : Int}
    (hvalid : safeUserIdOk uid = true)
    (hnorow : ∀ r ∈ st.table, r.userId ≠ uid) :
    get_single_image st uid index = .error .imageNotFound := by
  by_cases hinr : index < 0 ∨ (MAX_IMAGES_PER_USER : Int) ≤ index
  · unfold get_single_image
    rw [hvalid]
    simp only [Bool.not_true, Bool.false_eq_true, if_false]
    rw [if_pos hinr]
  · rw [get_single_eval hvalid hinr]
    have hfind : st.table.find? (fun r => r.userId == uid && r.imageIndex == index) = none := by
      rw [List.find?_eq_none]
      intro r hr
      simp [hnorow r hr]
    rw [hfind]

theorem get_single_out_of_range_aux {st : AppState} {uid : String} {index : Int}
    (hvalid : safeUserIdOk uid = true)
    (hrange : index < 0 ∨ (MAX_IMAGES_PER_USER : Int) ≤ index) :
    get_single_image st uid index = .error .imageNotFound := by
  unfold get_single_image
  rw [hvalid]
  simp only [Bool.not_true, Bool.false_eq_true, if_false]
  rw [if_pos hrange]

theorem upload_unsupported_aux {st : AppState} {uid filename contentType : String}
    {content now : Nat} (hvalid : safeUserIdOk uid = true)
    (huser : userExists st uid = true)
    (hct : ALLOWED_CONTENT_TYPES.contains (strLower contentType) = false) :
    upload_image st uid filename contentType content now = .error .unsupportedMediaType := by
  unfold upload_image
  rw [hvalid, huser, hct]
  simp

/-- Primary-key uniqueness: two rows of the table sharing (user_id,
image_index) are the same row. -/
theorem key_unique {table : List SlotRecord} (hnd : (pkList table).Nodup)
    {r1 r2 : SlotRecord} (h1 : r1 ∈ table) (h2 : r2 ∈ table)
    (hku : r1.userId = r2.userId) (hki : r1.imageIndex = r2.imageIndex) : r1 = r2 := by
  induction table with
  | nil => cases h1
  | cons a t ih =>
    rw [pkList_eq, List.map_cons, List.nodup_cons] at hnd
    rcases List.mem_cons.mp h1 with rfl | h1t
    · rcases List.mem_cons.mp h2 with rfl | h2t
      · rfl
      · exfalso
        apply hnd.1
        rw [List.mem_map]
        exact ⟨r2, h2t, by rw [hku, hki]⟩
    · rcases List.mem_cons.mp h2 with rfl | h2t
      · exfalso
        apply hnd.1
        rw [List.mem_map]
        exact ⟨r1, h1t, by rw [hku, hki]⟩
      · exact ih (by rw [pkList_eq]; exact hnd.2) h1t h2t

/-! ### C7: retrieval outcome characterisation -/

/-- On invariant states, get_single_image fails with imageNotFound exactly
when no row carries the key or the row's blob is gone; otherwise it serves the
blob's content with the media type guessed from the stored path. -/
theorem get_single_spec_aux {st : AppState} {uid : String} {index : Int}
    (hvalid : safeUserIdOk uid = true) (hok : TableOk st.table) :
    (get_single_image st uid index = .error .imageNotFound ↔
      (∀ r ∈ st.table, ¬(r.userId = uid ∧ r.imageIndex = index)) ∨
      (∃ r ∈ st.table, (r.userId = uid ∧ r.imageIndex = index) ∧
        blobRead st.blobs r.filePath = none)) ∧
    (∀ r ∈ st.table, r.userId = uid → r.imageIndex = index →
      ∀ c : Nat, blobRead st.blobs r.filePath = some c →
        get_single_image st uid index =
          .ok (c, (guessMediaType r.filePath).getD "application/octet-stream")) := by
  by_cases hinr : index < 0 ∨ (MAX_IMAGES_PER_USER : Int) ≤ index
  · have heval := @get_single_out_of_range_aux st uid index hvalid hinr
    have hnor : ∀ r ∈ st.table, ¬(r.userId = uid ∧ r.imageIndex = index) := by
      intro r hr hcon
      have hrng := hok.2.1 r hr
      rw [hcon.2] at hrng
      simp only [MAX_IMAGES_PER_USER] at hinr hrng
      omega
    refine ⟨by rw [heval]; exact iff_of_true rfl (Or.inl hnor), ?_⟩
    intro r hr h1 h2 c hc
    exact absurd ⟨h1, h2⟩ (hnor r hr)
  · cases hfind : st.table.find? (fun r => r.userId == uid && r.imageIndex == index) with
    | none =>
      have heval : get_single_image st uid index = .error .imageNotFound := by
        rw [get_single_eval hvalid hinr]
        simp [hfind]
      have hnor : ∀ r ∈ st.table, ¬(r.userId = uid ∧ r.imageIndex = index) := by
        intro r hr hcon
        have hmiss := List.find?_eq_none.mp hfind r hr
        simp [hcon.1, hcon.2] at hmiss
      refine ⟨by rw [heval]; exact iff_of_true rfl (Or.inl hnor), ?_⟩
      intro r hr h1 h2 c hc
      exact absurd ⟨h1, h2⟩ (hnor r hr)
    | some row =>
      have hrowmem := List.mem_of_find?_eq_some hfind
      have hrowkey : row.userId = uid ∧ row.imageIndex = index := by
        have hp := List.find?_some hfind
        simpa using hp
      have hpath : row.filePath ≠ "" := hok.2.2 row hrowmem
      cases hread : blobRead st.blobs row.filePath with
      | none =>
        have heval : get_single_image st uid index = .error .imageNotFound := by
          rw [get_single_eval hvalid hinr]
          simp [hfind, hpath, hread]
        refine ⟨?_, ?_⟩
        · rw [heval]
          exact iff_of_true rfl (Or.inr ⟨row, hrowmem, hrowkey, hread⟩)
        intro r hr h1 h2 c hc
        have hreq : r = row :=
          key_unique hok.1 hr hrowmem (h1.trans hrowkey.1.symm) (h2.trans hrowkey.2.symm)
        rw [hreq, hread] at hc
        cases hc
      | some c0 =>
        have heval : get_single_image st uid index =
            .ok (c0, (guessMediaType row.filePath).getD "application/octet-stream") := by
          rw [get_single_eval hvalid hinr]
          simp [hfind, hpath, hread]
        constructor
        · rw [heval]
          apply iff_of_false
          · simp
          · rintro (hnor | ⟨r, hr, hkey, hnone⟩)
            · exact hnor row hrowmem hrowkey
            · have hreq : r = row := key_unique hok.1 hr hrowmem
                (hkey.1.trans hrowkey.1.symm) (hkey.2.trans hrowkey.2.symm)
              rw [hreq, hread] at hnone
              cases hnone
        · intro r hr h1 h2 c hc
          have hreq : r = row :=
            key_unique hok.1 hr hrowmem (h1.trans hrowkey.1.symm) (h2.trans hrowkey.2.symm)
          rw [hreq] at hc ⊢
          rw [hread] at hc
          injection hc with hc
          rw [heval, hc]

/-! ### C8: clear-all removes every row and is idempotent -/

theorem clear_all_no_rows (st : AppState) (uid : String) :
    ∀ r ∈ (clear_all_images st uid).table, r.userId ≠ uid := by
  intro r hr hc
  unfold clear_all_images at hr
  simp only [List.mem_filter] at hr
  have hb := hr.2
  simp [hc] at hb

theorem clear_all_idem (st : AppState) (uid : String) :
    clear_all_images (clear_all_images st uid) uid = clear_all_images st uid := by
  have huser : userRows (clear_all_images st uid).table uid = [] := by
    rw [List.eq_nil_iff_forall_not_mem]
    intro r hr
    have hmem := mem_userRows.mp hr
    exact clear_all_no_rows st uid r hmem.1 hmem.2
  have htab : (clear_all_images st uid).table.filter (fun r => !(r.userId == uid)) =
      (clear_all_images st uid).table := by
    rw [List.filter_eq_self]
    intro r hr
    simp [clear_all_no_rows st uid r hr]
  show ({ clear_all_images st uid with
      table := (clear_all_images st uid).table.filter (fun r => !(r.userId == uid))
      blobs := (userRows (clear_all_images st uid).table uid).foldl
        (fun bs r => blobDelete bs r.filePath) (clear_all_images st uid).blobs } :
      AppState) = clear_all_images st uid
  rw [htab, huser]
  simp only [List.foldl_nil]

/-! ### Claim theorems -/

/-- C1: for every user whose set of occupied slots has fewer than N = 10
elements, pick_index_for_upload returns the smallest index in [0, 10) not
present among the occupied indices. -/
theorem claim_C1_smallest_free_index (table : List SlotRecord) (uid : String)
    (hlen : (userRows table uid).length < MAX_IMAGES_PER_USER) :
    ∃ n : Nat, pick_index_for_upload table uid = Int.ofNat n ∧
      n < MAX_IMAGES_PER_USER ∧
      Int.ofNat n ∉ (userRows table uid).map (fun r => r.imageIndex) ∧
      ∀ m : Nat, m < n →
        Int.ofNat m ∈ (userRows table uid).map (fun r => r.imageIndex) :=
  pick_smallest_free_aux table uid hlen

/-- C1 witness: with occupied indices {0,2,3} the hypothesis holds and the
allocator indeed returns 1. -/
theorem claim_C1_witness :
    ((userRows exTableC1 "u").length < MAX_IMAGES_PER_USER ∧
      ∃ n : Nat, pick_index_for_upload exTableC1 "u" = Int.ofNat n ∧
        n < MAX_IMAGES_PER_USER ∧
        Int.ofNat n ∉ (userRows exTableC1 "u").map (fun r => r.imageIndex) ∧
        ∀ m : Nat, m < n →
          Int.ofNat m ∈ (userRows exTableC1 "u").map (fun r => r.imageIndex)) ∧
      pick_index_for_upload exTableC1 "u" = Int.ofNat 1 :=
  ⟨⟨by decide, claim_C1_smallest_free_index exTableC1 "u" (by decide)⟩, by decide⟩

/-- C2 counterexample: with exactly 10 occupied rows and the minimum
created_at attained both at index 5 (inserted first) and at index 1, the
allocator returns 5, not the minimum index 1 the claim requires. -/
theorem claim_C2_counterexample :
    (userRows exTableC2 "u").length = MAX_IMAGES_PER_USER ∧
    (∃ r, r ∈ userRows exTableC2 "u" ∧ r.imageIndex = 1 ∧
      ∀ x ∈ userRows exTableC2 "u", r.createdAt ≤ x.createdAt) ∧
    pick_index_for_upload exTableC2 "u" = 5 := by
  refine ⟨by decide, ⟨⟨"u", 1, "uploads/u/1.png", 7⟩, by decide, by decide, by decide⟩,
    by decide⟩

/-- C2 amended: for a user with exactly 10 occupied rows the allocator
returns the index of the first-inserted row (smallest rowid) among those with
minimal created_at — a created_at tie is broken by insertion order, not by
minimum index. -/
theorem claim_C2_evicts_oldest (table : List SlotRecord) (uid : String)
    (hlen : (userRows table uid).length = MAX_IMAGES_PER_USER) :
    ∃ l1 r l2, userRows table uid = l1 ++ r :: l2 ∧
      pick_index_for_upload table uid = r.imageIndex ∧
      (∀ x ∈ userRows table uid, r.createdAt ≤ x.createdAt) ∧
      ∀ x ∈ l1, r.createdAt < x.createdAt :=
  pick_evicts_oldest_aux table uid hlen

/-- C2 witness for the amended statement, at the concrete full table. -/
theorem claim_C2_witness :
    (userRows exTableC2 "u").length = MAX_IMAGES_PER_USER ∧
    ∃ l1 r l2, userRows exTableC2 "u" = l1 ++ r :: l2 ∧
      pick_index_for_upload exTableC2 "u" = r.imageIndex ∧
      (∀ x ∈ userRows exTableC2 "u", r.createdAt ≤ x.createdAt) ∧
      ∀ x ∈ l1, r.createdAt < x.createdAt :=
  ⟨by decide, claim_C2_evicts_oldest exTableC2 "u" (by decide)⟩

/-- C3: starting from an empty table, after any sequence of uploads every
user occupies at most N = 10 rows and no index is occupied twice. -/
theorem claim_C3_capacity_invariant (dirs : List String) (qs : List UploadReq)
    (uid : String) :
    (userRows (runUploads ⟨[], [], dirs⟩ qs).table uid).length ≤ MAX_IMAGES_PER_USER ∧
    ((userRows (runUploads ⟨[], [], dirs⟩ qs).table uid).map
      (fun r => r.imageIndex)).Nodup := by
  have hok : TableOk (runUploads ⟨[], [], dirs⟩ qs).table :=
    tableOk_runUploads tableOk_nil qs
  exact ⟨by simpa [MAX_IMAGES_PER_USER] using userRows_length_le uid hok,
    indices_nodup_of_pk uid hok.1⟩

/-- C4: after an upload that evicts (the user was full), the evicted slot
existed, exactly one row carries the reused (user, index) key, and that row
is the newly inserted one: its file_path is the fresh blob's path and the
blob store holds the new content there. -/
theorem claim_C4_eviction_replacement {st : AppState}
    {uid filename contentType : String} {content now : Nat} {st1 : AppState}
    {idx : Int} (hfull : (userRows st.table uid).length = MAX_IMAGES_PER_USER)
    (h : upload_image st uid filename contentType content now = .ok (st1, idx)) :
    (∃ old ∈ st.table, old.userId = uid ∧ old.imageIndex = idx) ∧
    st1.table.filter (fun r => r.userId == uid && r.imageIndex == idx) =
      [⟨uid, idx, targetPath uid idx (inferExtension filename contentType), now⟩] ∧
    blobRead st1.blobs (targetPath uid idx (inferExtension filename contentType)) =
      some content :=
  upload_replaces_aux hfull h

/-- The full user state used to exercise eviction: exTableC2 with one blob
per row. -/
def exStC4 : AppState :=
  ⟨exTableC2, exTableC2.map (fun r => (r.filePath, r.createdAt)), ["u"]⟩

/-- The eviction upload request used by the C4 witness. -/
def exReqC4 : UploadReq := ⟨"u", "x.gif", "image/gif", 99, 20⟩

/-- C4 witness at a concrete full user: the upload evicts index 5 and the
sole row at (u, 5) now carries the new .gif path with the new content. -/
theorem claim_C4_witness :
    ((userRows exStC4.table "u").length = MAX_IMAGES_PER_USER ∧
      upload_image exStC4 "u" "x.gif" "image/gif" 99 20 =
        .ok (applyUpload exStC4 exReqC4, 5)) ∧
    ((∃ old ∈ exStC4.table, old.userId = "u" ∧ old.imageIndex = 5) ∧
      (applyUpload exStC4 exReqC4).table.filter
        (fun r => r.userId == "u" && r.imageIndex == 5) =
        [⟨"u", 5, targetPath "u" 5 (inferExtension "x.gif" "image/gif"), 20⟩] ∧
      blobRead (applyUpload exStC4 exReqC4).blobs
        (targetPath "u" 5 (inferExtension "x.gif" "image/gif")) = some 99) :=
  ⟨⟨by decide, by rfl⟩, claim_C4_eviction_replacement (by decide) (by rfl)⟩

/-- C5 counterexample: against a namespace never created (empty state),
single-image retrieval reports the generic imageNotFound outcome, not the
distinguishable userNotFound the claim requires. -/
theorem claim_C5_counterexample :
    userExists AppState.empty "alice" = false ∧
    get_single_image AppState.empty "alice" 0 = .error .imageNotFound ∧
    get_single_image AppState.empty "alice" 0 ≠ .error .userNotFound := by
  refine ⟨rfl, rfl, ?_⟩
  intro h
  rw [show get_single_image AppState.empty "alice" 0 = .error .imageNotFound from rfl] at h
  injection h with h2
  cases h2

/-- C5 amended: upload and list against a never-created namespace fail with
userNotFound and leave the state untouched; single-image retrieval instead
fails with the generic imageNotFound (it never consults the namespace). -/
theorem claim_C5_unknown_user {st : AppState} {uid filename contentType : String}
    {content now : Nat} {index : Int}
    (hvalid : safeUserIdOk uid = true) (hnouser : userExists st uid = false)
    (hnorow : ∀ r ∈ st.table, r.userId ≠ uid) :
    upload_image st uid filename contentType content now = .error .userNotFound ∧
    applyUpload st ⟨uid, filename, contentType, content, now⟩ = st ∧
    get_all_images st uid = .error .userNotFound ∧
    get_single_image st uid index = .error .imageNotFound := by
  have h1 : upload_image st uid filename contentType content now =
      .error .userNotFound := upload_user_not_found_aux hvalid hnouser
  exact ⟨h1, applyUpload_of_error h1, get_all_user_not_found_aux hvalid hnouser,
    get_single_no_rows_aux hvalid hnorow⟩

/-- C5 witness for the amended statement, at the empty state. -/
theorem claim_C5_witness :
    (safeUserIdOk "alice" = true ∧ userExists AppState.empty "alice" = false ∧
      (∀ r ∈ AppState.empty.table, r.userId ≠ "alice")) ∧
    (upload_image AppState.empty "alice" "a.png" "image/png" 0 0 =
        .error .userNotFound ∧
      applyUpload AppState.empty ⟨"alice", "a.png", "image/png", 0, 0⟩ =
        AppState.empty ∧
      get_all_images AppState.empty "alice" = .error .userNotFound ∧
      get_single_image AppState.empty "alice" 0 = .error .imageNotFound) :=
  ⟨⟨by decide, by decide, by decide⟩,
    claim_C5_unknown_user (by decide) (by decide) (by decide)⟩

/-- C6: an upload whose declared content type is (after lowercasing) outside
the allowed set fails with unsupportedMediaType and mutates nothing: no blob
is written and no row is inserted. -/
theorem claim_C6_unsupported_type {st : AppState} {uid filename contentType : String}
    {content now : Nat}
    (hvalid : safeUserIdOk uid = true) (huser : userExists st uid = true)
    (hct : ALLOWED_CONTENT_TYPES.contains (strLower contentType) = false) :
    upload_image st uid filename contentType content now =
      .error .unsupportedMediaType ∧
    applyUpload st ⟨uid, filename, contentType, content, now⟩ = st := by
  have h1 : upload_image st uid filename contentType content now =
      .error .unsupportedMediaType := upload_unsupported_aux hvalid huser hct
  exact ⟨h1, applyUpload_of_error h1⟩

/-- C6 witness: a text/plain upload to an existing user fails and the state
is unchanged. -/
theorem claim_C6_witness :
    (safeUserIdOk "u" = true ∧
      userExists (⟨[], [], ["u"]⟩ : AppState) "u" = true ∧
      ALLOWED_CONTENT_TYPES.contains (strLower "text/plain") = false) ∧
    (upload_image (⟨[], [], ["u"]⟩ : AppState) "u" "a.txt" "text/plain" 7 3 =
        .error .unsupportedMediaType ∧
      applyUpload (⟨[], [], ["u"]⟩ : AppState) ⟨"u", "a.txt", "text/plain", 7, 3⟩ =
        (⟨[], [], ["u"]⟩ : AppState)) :=
  ⟨⟨by decide, by decide, by decide⟩,
    claim_C6_unsupported_type (by decide) (by decide) (by decide)⟩

/-- C7: on invariant states, single-image retrieval fails with imageNotFound
exactly when no row carries (user_id, index) or that row's blob no longer
exists; otherwise it returns the blob content with a content type derived
from the stored path's extension. -/
theorem claim_C7_retrieval_spec {st : AppState} {uid : String} {index : Int}
    (hvalid : safeUserIdOk uid = true) (hok : TableOk st.table) :
    (get_single_image st uid index = .error .imageNotFound ↔
      (∀ r ∈ st.table, ¬(r.userId = uid ∧ r.imageIndex = index)) ∨
      (∃ r ∈ st.table, (r.userId = uid ∧ r.imageIndex = index) ∧
        blobRead st.blobs r.filePath = none)) ∧
    (∀ r ∈ st.table, r.userId = uid → r.imageIndex = index →
      ∀ c : Nat, blobRead st.blobs r.filePath = some c →
        get_single_image st uid index =
          .ok (c, (guessMediaType r.filePath).getD "application/octet-stream")) :=
  get_single_spec_aux hvalid hok

/-- C7 witness at the concrete full user state. -/
theorem claim_C7_witness :
    (safeUserIdOk "u" = true ∧ TableOk exStC4.table) ∧
    ((get_single_image exStC4 "u" 0 = .error .imageNotFound ↔
      (∀ r ∈ exStC4.table, ¬(r.userId = "u" ∧ r.imageIndex = 0)) ∨
      (∃ r ∈ exStC4.table, (r.userId = "u" ∧ r.imageIndex = 0) ∧
        blobRead exStC4.blobs r.filePath = none)) ∧
    (∀ r ∈ exStC4.table, r.userId = "u" → r.imageIndex = 0 →
      ∀ c : Nat, blobRead exStC4.blobs r.filePath = some c →
        get_single_image exStC4 "u" 0 =
          .ok (c, (guessMediaType r.filePath).getD "application/octet-stream"))) :=
  ⟨⟨by decide, by decide, by decide, by decide⟩,
    claim_C7_retrieval_spec (by decide) ⟨by decide, by decide, by decide⟩⟩

/-- C8 (clear-all modelled from the spec, absent from src/main.py): clearing
removes every row of the user, and clearing twice equals clearing once — the
second call is a no-op and both calls succeed (the operation is total). -/
theorem claim_C8_clear_all_idempotent (st : AppState) (uid : String) :
    (∀ r ∈ (clear_all_images st uid).table, r.userId ≠ uid) ∧
    clear_all_images (clear_all_images st uid) uid = clear_all_images st uid :=
  ⟨clear_all_no_rows st uid, clear_all_idem st uid⟩

/-- C10: for any index outside [0, 10) single-image retrieval reports
imageNotFound on every state — even one holding a row at that index. -/
theorem claim_C10_out_of_range (st : AppState) (uid : String) (index : Int)
    (hvalid : safeUserIdOk uid = true)
    (hrange : index < 0 ∨ (MAX_IMAGES_PER_USER : Int) ≤ index) :
    get_single_image st uid index = .error .imageNotFound :=
  get_single_out_of_range_aux hvalid hrange

/-- A corrupted state holding a row at out-of-range index 12 with a live
blob. -/
def exStC10 : AppState :=
  ⟨[⟨"u", 12, "uploads/u/12.png", 1⟩], [("uploads/u/12.png", 5)], ["u"]⟩

/-- C10 witness: even with a live row and blob at index 12, retrieval of
index 12 reports imageNotFound (and the same for a negative index). -/
theorem claim_C10_witness :
    (safeUserIdOk "u" = true ∧
      ((12 : Int) < 0 ∨ (MAX_IMAGES_PER_USER : Int) ≤ (12 : Int))) ∧
    get_single_image exStC10 "u" 12 = .error .imageNotFound :=
  ⟨⟨by decide, by decide⟩,
    claim_C10_out_of_range exStC10 "u" 12 (by decide) (by decide)⟩

end ImageApi
